import Mathlib

/-!
Verification of the block-index loader / chain-selection core of
rust-bitcoinkernel's `blockreader` component.

The embedding follows the C++ sources:
* `src/kernel/blockreader/reader_impl.cpp` (`BlockReader::LoadBlockIndex`,
  `Refresh`, `GetIBDStatus`, `GetBlockIndexByHeight`, `GetGenesisHash`,
  `GetUndoData`),
* `src/kernel/blockreader/blockreader.cpp` (the C-API wrappers
  `kernel_blockreader_is_block_in_active_chain`,
  `kernel_blockreader_get_headers_raw`, `kernel_block_index_get_raw_header`),
* `src/block_reader.cpp` (the standalone prototype with its own
  `GetBlockByHeight`),
* `libbitcoinkernel-sys/bitcoin/src/kernel/reader_impl.cpp` (the vendored
  variant of `LoadBlockIndex` containing the `max_header_height`
  self-assignment).

Vendored Bitcoin Core machinery used by that code (`CChain`,
`CBlockIndexWorkComparator`, `CBlockHeader` serialization) is not part of the
repository sources; where needed it is modelled from the specification's
description and marked `Modelled from the spec:` in the doc comment.
-/

/-- One block-index entry (`CBlockIndex`): header fields, height, cumulative
work and the script-validity flag.  The loader only ever queries
`IsValid(BLOCK_VALID_SCRIPTS)`, so the status bitmask is embedded as that
single boolean.  Hashes and field values are natural numbers; the intended
machine widths (32 bits for `version`/`time`/`bits`/`nonce`, 256 bits for the
hashes) appear as explicit bounds in the theorems that depend on them. -/
structure BlockIndexEntry where
  hash : Nat
  prevHash : Option Nat
  height : Nat
  version : Nat
  merkleRoot : Nat
  time : Nat
  bits : Nat
  nonce : Nat
  chainWork : Nat
  validScripts : Bool
  deriving DecidableEq, Repr

/-- Little-endian serialization of `n` into exactly `w` bytes, as the
fixed-width writers of the byte stream produce. -/
def serLE : Nat → Nat → List Nat
  | 0, _ => []
  | w + 1, n => (n % 256) :: serLE w (n / 256)

/-- Little-endian decoding of a byte list back into a natural number. -/
def deLE : List Nat → Nat
  | [] => 0
  | b :: bs => b + 256 * deLE bs

/-- The previous-hash field that the header getter serializes: the parent's
hash, or all-zero for an entry without a parent.  Modelled from the spec:
`CBlockIndex::GetBlockHeader` is vendored Core code not under `src/`; the spec
fixes the layout ("32-byte previous-block hash", absent only for genesis,
which serializes as zero). -/
def prevHashField (e : BlockIndexEntry) : Nat :=
  e.prevHash.getD 0

/-- 80-byte header serialization (`kernel_block_index_get_raw_header` /
`DataStream << CBlockHeader`).  Modelled from the spec: the `CBlockHeader`
serializer is vendored Core code not under `src/`; the spec fixes the exact
layout — 4-byte version, 32-byte previous-block hash, 32-byte merkle root,
4-byte time, 4-byte bits, 4-byte nonce, little-endian, no padding. -/
def serializeHeader (e : BlockIndexEntry) : List Nat :=
  serLE 4 e.version ++ serLE 32 (prevHashField e) ++ serLE 32 e.merkleRoot ++
    serLE 4 e.time ++ serLE 4 e.bits ++ serLE 4 e.nonce

/-- Decoder for the 80-byte layout: reads the six fixed-width little-endian
fields back in order (4 + 32 + 32 + 4 + 4 + 4 bytes). -/
def decodeHeader (bs : List Nat) : Nat × Nat × Nat × Nat × Nat × Nat :=
  let r1 := bs.drop 4
  let r2 := r1.drop 32
  let r3 := r2.drop 32
  let r4 := r3.drop 4
  let r5 := r4.drop 4
  (deLE (bs.take 4), deLE (r1.take 32), deLE (r2.take 32),
   deLE (r3.take 4), deLE (r4.take 4), deLE (r5.take 4))

theorem serLE_length (w n : Nat) : (serLE w n).length = w := by
  induction w generalizing n with
  | zero => rfl
  | succ w ih => simp [serLE, ih]

theorem deLE_serLE (w n : Nat) (h : n < 256 ^ w) : deLE (serLE w n) = n := by
  induction w generalizing n with
  | zero =>
    simp [pow_zero] at h
    simp [serLE, deLE, h]
  | succ w ih =>
    have hdiv : n / 256 < 256 ^ w := by
      rw [Nat.div_lt_iff_lt_mul (by norm_num)]
      calc n < 256 ^ (w + 1) := h
        _ = 256 ^ w * 256 := by ring
    simp [serLE, deLE, ih _ hdiv]
    omega

theorem decodeHeader_serializeHeader (e : BlockIndexEntry)
    (hv : e.version < 2 ^ 32) (hp : prevHashField e < 2 ^ 256)
    (hm : e.merkleRoot < 2 ^ 256) (ht : e.time < 2 ^ 32)
    (hb : e.bits < 2 ^ 32) (hn : e.nonce < 2 ^ 32) :
    decodeHeader (serializeHeader e) =
      (e.version, prevHashField e, e.merkleRoot, e.time, e.bits, e.nonce) := by
  have h32 : (2:Nat) ^ 32 = 256 ^ 4 := by norm_num
  have h256 : (2:Nat) ^ 256 = 256 ^ 32 := by norm_num
  simp only [decodeHeader, serializeHeader, List.append_assoc]
  rw [List.take_left' (serLE_length 4 e.version),
      List.drop_left' (serLE_length 4 e.version),
      List.take_left' (serLE_length 32 (prevHashField e)),
      List.drop_left' (serLE_length 32 (prevHashField e)),
      List.take_left' (serLE_length 32 e.merkleRoot),
      List.drop_left' (serLE_length 32 e.merkleRoot),
      List.take_left' (serLE_length 4 e.time),
      List.drop_left' (serLE_length 4 e.time),
      List.take_left' (serLE_length 4 e.bits),
      List.drop_left' (serLE_length 4 e.bits)]
  rw [List.take_of_length_le (by rw [serLE_length] : (serLE 4 e.nonce).length ≤ 4)]
  rw [deLE_serLE 4 e.version (h32 ▸ hv), deLE_serLE 32 (prevHashField e) (h256 ▸ hp),
      deLE_serLE 32 e.merkleRoot (h256 ▸ hm), deLE_serLE 4 e.time (h32 ▸ ht),
      deLE_serLE 4 e.bits (h32 ▸ hb), deLE_serLE 4 e.nonce (h32 ▸ hn)]

/-- `ChainView.Height` (`CChain::Height`): number of entries minus one, so the
empty chain reports the sentinel `-1`.  Modelled from the spec: `CChain` is
vendored Core code not under `src/`; §4.3 fixes this view. -/
def chainHeight (c : List BlockIndexEntry) : Int :=
  (c.length : Int) - 1

/-- `CChain::operator[]`: the entry at a height, absent outside the stored
vector.  Modelled from the spec (§4.3 `EntryAt`). -/
def chainAt (c : List BlockIndexEntry) (h : Int) : Option BlockIndexEntry :=
  if h < 0 then none else c.get? h.toNat

/-- `CChain::Tip`: the last stored entry, absent on the empty chain.
Modelled from the spec (§4.3 `Tip`). -/
def chainTipE (c : List BlockIndexEntry) : Option BlockIndexEntry :=
  c.getLast?

/-- `CChain::Genesis`: the entry at height 0, null on the empty chain.
Modelled from the spec (§4.3 `Genesis`). -/
def chainGenesis (c : List BlockIndexEntry) : Option BlockIndexEntry :=
  c.head?

/-- Ancestor walk of `CChain::SetTip`: from the tip, follow parent links
through the arena of enumerated entries, tip first.  Modelled from the spec:
`SetTip` is vendored Core code; §4.2 step 4 reconstructs the ancestor path
from the selected tip back to genesis by `previous_hash` lookups.  The fuel
`tip.height` bounds the walk exactly as the `vChain` resize in `SetTip`
bounds the vector. -/
def walkBack (index : List BlockIndexEntry) : Nat → BlockIndexEntry → List BlockIndexEntry
  | 0, e => [e]
  | fuel + 1, e =>
    e :: (match e.prevHash with
      | none => []
      | some ph =>
        match index.find? (fun x => x.hash == ph) with
        | none => []
        | some p => walkBack index fuel p)

/-- `CChain::SetTip` applied to the selected tip: the resulting height-indexed
vector, genesis first. -/
def setTip (index : List BlockIndexEntry) (tip : BlockIndexEntry) : List BlockIndexEntry :=
  (walkBack index tip.height tip).reverse

/-- Work ordering used for tip selection.  Modelled from the spec:
`CBlockIndexWorkComparator` is vendored Core code not under `src/`; the spec
(§4.2 step 3) orders candidates by `cumulative_work` with any stable
deterministic tie-break.  Here equal-work ties order by hash. -/
def workLe (a b : BlockIndexEntry) : Prop :=
  a.chainWork < b.chainWork ∨ (a.chainWork = b.chainWork ∧ a.hash ≤ b.hash)

instance workLe.decRel : DecidableRel workLe := fun a b => by
  unfold workLe; exact inferInstance

instance workLe.total : IsTotal BlockIndexEntry workLe := by
  constructor; intro a b; unfold workLe; omega

instance workLe.trans : IsTrans BlockIndexEntry workLe := by
  constructor; intro a b c hab hbc; unfold workLe at *; omega

/-- Tip selection of `LoadBlockIndex`: `std::sort` the script-validated
entries with the work comparator and take `validated_blocks.back()`; `none`
when the validated subset is empty. -/
def selectTip (validated : List BlockIndexEntry) : Option BlockIndexEntry :=
  (List.insertionSort workLe validated).getLast?

/-- The reader's mutable state: `m_header_height` and `m_validated_chain`. -/
structure ReaderState where
  headerHeight : Int
  chain : List BlockIndexEntry
  deriving DecidableEq, Repr

/-- State at construction: `int m_header_height{0}` and an empty chain. -/
def initialReaderState : ReaderState :=
  { headerHeight := 0, chain := [] }

/-- `BlockReader::LoadBlockIndex` (src/kernel/blockreader/reader_impl.cpp,
lines 57-87).  `db` is the outcome of `LoadBlockIndexDB` +
`GetAllBlockIndices`: `none` for enumeration failure (the function returns
false with the state untouched), `some entries` for the enumerated index.
On success the max height over every entry becomes `m_header_height`, and if
any entry has `BLOCK_VALID_SCRIPTS` the sorted maximum becomes the new tip;
otherwise the previous chain is kept. -/
def loadBlockIndex (s : ReaderState) (db : Option (List BlockIndexEntry)) :
    Option ReaderState :=
  match db with
  | none => none
  | some entries =>
    let maxH := entries.foldl (fun m e => max m (e.height : Int)) 0
    let validated := entries.filter (fun e => e.validScripts)
    let s1 : ReaderState := { s with headerHeight := maxH }
    match selectTip validated with
    | none => some s1
    | some tip => some { s1 with chain := setTip entries tip }

/-- `BlockReader::LoadBlockIndex` as vendored in
`libbitcoinkernel-sys/bitcoin/src/kernel/reader_impl.cpp` (lines 55-85).
Identical to `loadBlockIndex` except line 77 reads
`max_header_height = max_header_height;` — the local maximum is assigned to
itself and the member `m_header_height` is never updated. -/
def loadBlockIndexSys (s : ReaderState) (db : Option (List BlockIndexEntry)) :
    Option ReaderState :=
  match db with
  | none => none
  | some entries =>
    let maxH := entries.foldl (fun m e => max m (e.height : Int)) 0
    let _selfAssigned := maxH
    let validated := entries.filter (fun e => e.validScripts)
    match selectTip validated with
    | none => some s
    | some tip => some { s with chain := setTip entries tip }

/-- `BlockReader::Refresh` (src/kernel/blockreader/reader_impl.cpp, lines
89-103): re-runs `LoadBlockIndex`; on failure it only logs and returns.  The
function is `void` here, and its C wrapper `kernel_blockreader_refresh`
(blockreader.cpp, lines 84-88) is `void` as well, so the caller observes
nothing but the resulting state. -/
def refreshReader (s : ReaderState) (db : Option (List BlockIndexEntry)) :
    ReaderState :=
  match loadBlockIndex s db with
  | none => s
  | some s2 => s2

/-- Sync classification. -/
inductive IBDStatus
  | NO_DATA
  | IN_IBD
  | SYNCED
  deriving DecidableEq, Repr

/-- `BlockReader::GetIBDStatus` (src/kernel/blockreader/reader_impl.cpp,
lines 105-112; the same body appears in src/block_reader.cpp, lines
145-152). -/
def getIBDStatus (s : ReaderState) : IBDStatus :=
  if s.headerHeight = 0 then IBDStatus.NO_DATA
  else if chainHeight s.chain = 0 then IBDStatus.IN_IBD
  else if s.headerHeight - chainHeight s.chain > 144 then IBDStatus.IN_IBD
  else IBDStatus.SYNCED

/-- `BlockReader::GetBlockIndexByHeight` (src/kernel/blockreader/
reader_impl.cpp, lines 153-159): reject heights outside
`[0, m_validated_chain.Height()]`, then index the chain. -/
def getBlockIndexByHeight (c : List BlockIndexEntry) (h : Int) :
    Option BlockIndexEntry :=
  if h < 0 ∨ h > chainHeight c then none
  else chainAt c h

/-- `BlockReader::GetBlock(hash)` from the standalone prototype
`src/block_reader.cpp` (lines 169-189): look the hash up in the full block
index (`LookupBlockIndex`, the `lookup` oracle), then read the block payload
from the store (`ReadBlock`, the `readBlock` oracle).  Block payloads are
opaque (`Nat`). -/
def getBlockProto (lookup : Nat → Option BlockIndexEntry)
    (readBlock : BlockIndexEntry → Option Nat) (hash : Nat) : Option Nat :=
  match lookup hash with
  | none => none
  | some pindex => readBlock pindex

/-- `BlockReader::GetBlockByHeight` from the standalone prototype
`src/block_reader.cpp` (lines 159-167).  Note the bound: heights with
`height >= m_validated_chain.Height()` are rejected before the chain entry is
resolved and its block fetched through `GetBlock`. -/
def getBlockByHeightProto (c : List BlockIndexEntry)
    (lookup : Nat → Option BlockIndexEntry)
    (readBlock : BlockIndexEntry → Option Nat) (h : Int) : Option Nat :=
  if h < 0 ∨ h ≥ chainHeight c then none
  else
    match chainAt c h with
    | none => none
    | some pindex => getBlockProto lookup readBlock pindex.hash

/-- `BlockReader::GetBlockByHeight` of src/kernel/blockreader/reader_impl.cpp
(lines 119-134): bound check with `height > m_validated_chain.Height()`,
null-check of the resolved entry, then a store read via `GetBlockByIndex`
(`BlockManager::ReadBlock`, the `readBlock` oracle). -/
def getBlockByHeightReader (c : List BlockIndexEntry)
    (readBlock : BlockIndexEntry → Option Nat) (h : Int) : Option Nat :=
  if h < 0 ∨ h > chainHeight c then none
  else
    match chainAt c h with
    | none => none
    | some pindex => readBlock pindex

/-- `kernel_blockreader_is_block_in_active_chain`
(src/kernel/blockreader/blockreader.cpp, lines 156-165): resolve the chain
entry at the argument's height via `GetBlockIndexByHeight` and compare block
hashes.  The source dereferences the lookup result without a null check
(`cblock_at_height->GetBlockHash()`); the `none` branch marks that undefined
dereference. -/
def isBlockInActiveChain (c : List BlockIndexEntry) (bi : BlockIndexEntry) :
    Option Bool :=
  match getBlockIndexByHeight c (bi.height : Int) with
  | none => none
  | some e => some (e.hash == bi.hash)

/-- The header-collection loop of `kernel_blockreader_get_headers_raw`
(src/kernel/blockreader/blockreader.cpp, lines 185-208): at each height
resolve the chain entry (break on null), serialize its header (break when the
serialization is not 80 bytes), and continue at the next height. -/
def headersLoop (c : List BlockIndexEntry) : Int → Nat → List (List Nat)
  | _, 0 => []
  | height, n + 1 =>
    match getBlockIndexByHeight c height with
    | none => []
    | some e =>
      let ser := serializeHeader e
      if ser.length ≠ 80 then []
      else ser :: headersLoop c (height + 1) n

/-- `kernel_blockreader_get_headers_raw` (src/kernel/blockreader/
blockreader.cpp, lines 167-222): null on `count == 0`, run the collection
loop from `start_height`, null when nothing was retrieved, otherwise the
concatenation of the collected 80-byte headers. -/
def getHeadersRaw (c : List BlockIndexEntry) (start : Int) (count : Nat) :
    Option (List Nat) :=
  if count = 0 then none
  else if (headersLoop c start count).length = 0 then none
  else some (headersLoop c start count).flatten

/-- `BlockReader::GetUndoData` (src/kernel/blockreader/reader_impl.cpp, lines
166-180) with the store read `BlockManager::ReadBlockUndo` as the `readUndo`
oracle.  The first component is the returned undo payload (null for genesis
and for a failed read); the second records which store reads were issued. -/
def getUndoData (readUndo : BlockIndexEntry → Option Nat)
    (e : BlockIndexEntry) : Option Nat × List BlockIndexEntry :=
  if e.height < 1 then (none, [])
  else
    match readUndo e with
    | none => (none, [e])
    | some u => (some u, [e])

/-- `BlockReader::GetGenesisHash` (src/kernel/blockreader/reader_impl.cpp,
lines 161-164): `m_validated_chain.Genesis()->GetBlockHash()`.  `Genesis()`
is null on the empty chain and the dereference is unguarded; `none` marks
that undefined dereference.  Neither this function nor its wrapper
`kernel_blockreader_get_genesis_hash` has an error result. -/
def getGenesisHash (c : List BlockIndexEntry) : Option Nat :=
  (chainGenesis c).map (fun e => e.hash)

theorem workLe_refl (a : BlockIndexEntry) : workLe a a :=
  Or.inr ⟨rfl, le_refl _⟩

theorem workLe_chainWork {a b : BlockIndexEntry} (h : workLe a b) :
    a.chainWork ≤ b.chainWork := by
  unfold workLe at h; omega

theorem serializeHeader_length (e : BlockIndexEntry) :
    (serializeHeader e).length = 80 := by
  simp [serializeHeader, serLE_length]

theorem walkBack_head (index : List BlockIndexEntry) (fuel : Nat)
    (e : BlockIndexEntry) : (walkBack index fuel e).head? = some e := by
  cases fuel <;> simp [walkBack]

theorem setTip_getLast (index : List BlockIndexEntry) (tip : BlockIndexEntry) :
    (setTip index tip).getLast? = some tip := by
  rw [setTip, List.getLast?_reverse, walkBack_head]

theorem sorted_getLast_max {l : List BlockIndexEntry} {t : BlockIndexEntry}
    (hs : List.Sorted workLe l) (hl : l.getLast? = some t) :
    ∀ x ∈ l, workLe x t := by
  induction l with
  | nil => simp at hl
  | cons a l ih =>
    intro x hx
    cases l with
    | nil =>
      simp at hl hx
      subst hl; subst hx
      exact workLe_refl x
    | cons b l2 =>
      rw [List.getLast?_cons_cons] at hl
      rcases List.mem_cons.mp hx with hxa | hxl
      · subst hxa
        exact List.rel_of_sorted_cons hs t
          (List.mem_of_mem_getLast? (Option.mem_def.mpr hl))
      · exact ih hs.of_cons hl x hxl

theorem selectTip_mem {l : List BlockIndexEntry} {t : BlockIndexEntry}
    (h : selectTip l = some t) : t ∈ l :=
  (List.perm_insertionSort workLe l).mem_iff.mp
    (List.mem_of_mem_getLast? (Option.mem_def.mpr h))

theorem selectTip_max {l : List BlockIndexEntry} {t : BlockIndexEntry}
    (h : selectTip l = some t) : ∀ x ∈ l, workLe x t := fun x hx =>
  sorted_getLast_max (List.sorted_insertionSort workLe l) h x
    ((List.perm_insertionSort workLe l).mem_iff.mpr hx)

theorem selectTip_isSome {l : List BlockIndexEntry} (h : l ≠ []) :
    ∃ t, selectTip l = some t := by
  unfold selectTip
  have hne : List.insertionSort workLe l ≠ [] := by
    intro hnil
    have hp := List.perm_insertionSort workLe l
    rw [hnil] at hp
    exact h hp.symm.eq_nil
  exact ⟨_, List.getLast?_eq_getLast_of_ne_nil hne⟩

theorem hash_inj_of_nodup {l : List BlockIndexEntry}
    (hnd : (l.map BlockIndexEntry.hash).Nodup) {a b : BlockIndexEntry}
    (ha : a ∈ l) (hb : b ∈ l) (hh : a.hash = b.hash) : a = b :=
  List.inj_on_of_nodup_map hnd ha hb hh

theorem selectTip_unique {l l2 : List BlockIndexEntry} {t t2 : BlockIndexEntry}
    (hperm : l2.Perm l) (hnd : (l.map BlockIndexEntry.hash).Nodup)
    (h1 : selectTip l = some t) (h2 : selectTip l2 = some t2) : t = t2 := by
  have htl : t ∈ l := selectTip_mem h1
  have ht2l : t2 ∈ l := hperm.mem_iff.mp (selectTip_mem h2)
  have h12 : workLe t t2 := selectTip_max h2 t (hperm.mem_iff.mpr htl)
  have h21 : workLe t2 t := selectTip_max h1 t2 ht2l
  have hh : t.hash = t2.hash := by unfold workLe at h12 h21; omega
  exact hash_inj_of_nodup hnd htl ht2l hh

theorem getBlockIndexByHeight_ofNat (c : List BlockIndexEntry) (s : Nat) :
    getBlockIndexByHeight c (s : Int) = c.get? s := by
  unfold getBlockIndexByHeight chainAt chainHeight
  by_cases hs : s < c.length
  · rw [if_neg (by omega), if_neg (by omega)]
    simp
  · rw [if_pos (by omega)]
    exact (List.get?_eq_none.mpr (by omega)).symm

theorem headersLoop_eq (c : List BlockIndexEntry) :
    ∀ (n : Nat) (s : Nat),
      headersLoop c (s : Int) n = ((c.drop s).take n).map serializeHeader := by
  intro n
  induction n with
  | zero => intro s; simp [headersLoop]
  | succ n ih =>
    intro s
    by_cases hs : s < c.length
    · have hget : getBlockIndexByHeight c (s : Int) = some (c.get ⟨s, hs⟩) := by
        rw [getBlockIndexByHeight_ofNat]
        exact List.get?_eq_get hs
      simp only [headersLoop, hget, serializeHeader_length]
      rw [List.drop_eq_getElem_cons hs, List.take_succ_cons, List.map_cons]
      simp only [List.get_eq_getElem]
      have hcast : ((s : Int) + 1) = ((s + 1 : Nat) : Int) := by push_cast; ring
      rw [hcast, ih (s + 1)]
      simp
    · have hget : getBlockIndexByHeight c (s : Int) = none := by
        rw [getBlockIndexByHeight_ofNat]
        exact List.get?_eq_none.mpr (by omega)
      have hdrop : c.drop s = [] := List.drop_eq_nil_of_le (by omega)
      simp [headersLoop, hget, hdrop]

/-- Concrete genesis entry for witnesses. -/
def gEntry : BlockIndexEntry :=
  { hash := 10, prevHash := none, height := 0, version := 1, merkleRoot := 2,
    time := 3, bits := 4, nonce := 5, chainWork := 1, validScripts := true }

/-- Concrete height-1 best-chain entry for witnesses. -/
def bEntry : BlockIndexEntry :=
  { hash := 11, prevHash := some 10, height := 1, version := 1, merkleRoot := 6,
    time := 7, bits := 8, nonce := 9, chainWork := 2, validScripts := true }

/-- Concrete height-10 header-only entry (scripts not validated). -/
def hdrEntry : BlockIndexEntry :=
  { hash := 12, prevHash := some 11, height := 10, version := 1, merkleRoot := 2,
    time := 3, bits := 4, nonce := 5, chainWork := 3, validScripts := false }

/-- Concrete side-branch entry at height 1: same height as `bEntry`, a
different hash. -/
def orphanEntry : BlockIndexEntry :=
  { hash := 99, prevHash := some 10, height := 1, version := 1, merkleRoot := 2,
    time := 3, bits := 4, nonce := 5, chainWork := 2, validScripts := true }

/-- Concrete enumeration: two validated entries and one header-only entry. -/
def sampleEntries : List BlockIndexEntry :=
  [gEntry, bEntry, hdrEntry]

/-- Concrete two-entry validated chain (the chain the load of `sampleEntries`
produces). -/
def sampleChain : List BlockIndexEntry :=
  [gEntry, bEntry]

/-- C1: on an enumeration whose script-validated subset is non-empty,
`LoadBlockIndex` succeeds and installs as chain tip a validated entry of
maximum cumulative work, and any permutation of the enumeration (run from any
prior reader state) installs the same tip.  Entries carry pairwise distinct
hashes, per the data model's unique-key invariant. -/
theorem load_selects_most_work_tip (s s2 : ReaderState)
    (entries entries2 : List BlockIndexEntry)
    (hperm : entries2.Perm entries)
    (hnd : (entries.map BlockIndexEntry.hash).Nodup)
    (hne : entries.filter (fun e => e.validScripts) ≠ []) :
    ∃ t s' s2',
      loadBlockIndex s (some entries) = some s' ∧
      loadBlockIndex s2 (some entries2) = some s2' ∧
      chainTipE s'.chain = some t ∧
      chainTipE s2'.chain = some t ∧
      t ∈ entries ∧ t.validScripts = true ∧
      ∀ e ∈ entries, e.validScripts = true → e.chainWork ≤ t.chainWork := by
  obtain ⟨t, ht⟩ := selectTip_isSome hne
  have hpf : (entries2.filter (fun e => e.validScripts)).Perm
      (entries.filter (fun e => e.validScripts)) := hperm.filter _
  have hne2 : entries2.filter (fun e => e.validScripts) ≠ [] := by
    intro h0
    rw [h0] at hpf
    exact hne hpf.symm.eq_nil
  obtain ⟨t2, ht2⟩ := selectTip_isSome hne2
  have hndf : ((entries.filter (fun e => e.validScripts)).map
      BlockIndexEntry.hash).Nodup :=
    hnd.sublist (List.Sublist.map _ (List.filter_sublist entries))
  obtain rfl : t = t2 := selectTip_unique hpf hndf ht ht2
  refine ⟨t,
    ⟨entries.foldl (fun m e => max m (e.height : Int)) 0, setTip entries t⟩,
    ⟨entries2.foldl (fun m e => max m (e.height : Int)) 0, setTip entries2 t⟩,
    ?_, ?_, ?_, ?_, ?_, ?_, ?_⟩
  · simp [loadBlockIndex, ht]
  · simp [loadBlockIndex, ht2]
  · exact setTip_getLast entries t
  · exact setTip_getLast entries2 t
  · exact (List.mem_filter.mp (selectTip_mem ht)).1
  · exact (List.mem_filter.mp (selectTip_mem ht)).2
  · intro e he hv
    exact workLe_chainWork (selectTip_max ht e (List.mem_filter.mpr ⟨he, hv⟩))

/-- Witness for C1 at a concrete enumeration and its reversal. -/
theorem load_selects_most_work_tip_witness :
    ∃ t s' s2',
      loadBlockIndex initialReaderState (some sampleEntries) = some s' ∧
      loadBlockIndex initialReaderState (some sampleEntries.reverse) = some s2' ∧
      chainTipE s'.chain = some t ∧
      chainTipE s2'.chain = some t ∧
      t ∈ sampleEntries ∧ t.validScripts = true ∧
      ∀ e ∈ sampleEntries, e.validScripts = true →
        e.chainWork ≤ t.chainWork :=
  load_selects_most_work_tip initialReaderState initialReaderState
    sampleEntries sampleEntries.reverse (List.reverse_perm sampleEntries)
    (by decide) (by decide)

/-- C2 counterexample: a reachable reader state with headers at height 10 and
an empty validated chain (validated height -1, so `validated_height <= 0`)
classifies as `SYNCED`, where the claim requires `InIBD`: the code tests
`Height() == 0`, not `<= 0`, and the `-1` sentinel falls through to the gap
test. -/
theorem getIBDStatus_claim_counterexample :
    loadBlockIndex initialReaderState (some [hdrEntry]) =
      some { headerHeight := 10, chain := [] } ∧
    chainHeight ([] : List BlockIndexEntry) = -1 ∧
    getIBDStatus { headerHeight := 10, chain := [] } = IBDStatus.SYNCED ∧
    IBDStatus.SYNCED ≠ IBDStatus.IN_IBD := by decide

/-- C2 amended: `GetIBDStatus` returns `NoData` iff `header_height == 0`;
otherwise `InIBD` iff `validated_height == 0` (exactly zero — the empty-chain
sentinel `-1` is not special-cased) or `header_height - validated_height >
144`; otherwise `Synced`. -/
theorem getIBDStatus_characterization (s : ReaderState) :
    (getIBDStatus s = IBDStatus.NO_DATA ↔ s.headerHeight = 0) ∧
    (getIBDStatus s = IBDStatus.IN_IBD ↔ s.headerHeight ≠ 0 ∧
      (chainHeight s.chain = 0 ∨ s.headerHeight - chainHeight s.chain > 144)) ∧
    (getIBDStatus s = IBDStatus.SYNCED ↔ s.headerHeight ≠ 0 ∧
      chainHeight s.chain ≠ 0 ∧ s.headerHeight - chainHeight s.chain ≤ 144) := by
  unfold getIBDStatus
  split_ifs with h1 h2 h3
  all_goals simp_all
  all_goals omega

/-- C3 counterexample: at this interface (`void BlockReader::Refresh`,
wrapped by `void kernel_blockreader_refresh`) a refresh whose index load
fails is indistinguishable from a successful refresh that found the same
data — the caller-observable outcome is the identical reader state — so the
failure is not reported as a distinct success/failure result. -/
theorem refresh_failure_not_reported :
    refreshReader { headerHeight := 10, chain := sampleChain } none =
      refreshReader { headerHeight := 10, chain := sampleChain }
        (some sampleEntries) := by decide

/-- C3 amended: a refresh whose underlying index load fails retains the
previous state — `Height()`, `GetIBDStatus()` and `Tip()` are identical to
their pre-refresh values — but the failure is only logged, not returned:
`Refresh` is `void` at this interface. -/
theorem refresh_failure_preserves_state (s : ReaderState) :
    refreshReader s none = s ∧
    chainHeight (refreshReader s none).chain = chainHeight s.chain ∧
    getIBDStatus (refreshReader s none) = getIBDStatus s ∧
    chainTipE (refreshReader s none).chain = chainTipE s.chain := by
  simp [refreshReader, loadBlockIndex]

/-- C4 (code bug): the vendored `LoadBlockIndex` of libbitcoinkernel-sys
assigns the local `max_header_height` to itself, so the stored header height
keeps its previous value (0 here) even though the enumerated maximum is 10;
the sibling implementation stores 10 from the same enumeration. -/
theorem sys_load_keeps_stale_header_height :
    [hdrEntry].foldl (fun m e => max m (e.height : Int)) 0 = 10 ∧
    loadBlockIndexSys initialReaderState (some [hdrEntry]) =
      some initialReaderState ∧
    loadBlockIndex initialReaderState (some [hdrEntry]) =
      some { headerHeight := 10, chain := [] } := by decide

/-- Concrete `LookupBlockIndex` oracle over the sample index. -/
def sampleLookup (h : Nat) : Option BlockIndexEntry :=
  if h = 10 then some gEntry else if h = 11 then some bEntry else none

/-- Concrete `ReadBlock` oracle: every entry's payload is present and equals
its hash. -/
def sampleReadBlock (e : BlockIndexEntry) : Option Nat :=
  some e.hash

/-- C5 (code bug): with the validated chain `[gEntry, bEntry]`
(`Height() = 1`), the reader_impl.cpp lookups resolve the tip height 1 and
the block read succeeds, and heights outside `[0, Height()]` are absent; but
the prototype `GetBlockByHeight` of src/block_reader.cpp rejects
`h = Height()` itself because of its `height >= Height()` bound. -/
theorem getBlockByHeight_tip_excluded :
    chainHeight sampleChain = 1 ∧
    getBlockIndexByHeight sampleChain 1 = some bEntry ∧
    getBlockByHeightReader sampleChain sampleReadBlock 1 = some 11 ∧
    getBlockByHeightProto sampleChain sampleLookup sampleReadBlock 1 = none ∧
    getBlockByHeightProto sampleChain sampleLookup sampleReadBlock 0 = some 10 ∧
    getBlockIndexByHeight sampleChain 2 = none ∧
    getBlockIndexByHeight sampleChain (-1) = none := by decide

/-- Concrete validated entry at height 5, beyond the sample chain tip. -/
def farEntry : BlockIndexEntry :=
  { hash := 55, prevHash := some 11, height := 5, version := 1, merkleRoot := 2,
    time := 3, bits := 4, nonce := 5, chainWork := 9, validScripts := true }

/-- C6 counterexample: for an entry whose height (5) has no entry in the
selected chain (`Height() = 0`), the claim requires the membership test to
return false; the code instead dereferences the null result of the height
lookup (modelled `none`) and returns nothing at all. -/
theorem isBlockInActiveChain_counterexample :
    isBlockInActiveChain [gEntry] farEntry = none ∧
    isBlockInActiveChain [gEntry] farEntry ≠ some false := by decide

/-- C6 amended: when the selected chain has an entry at `bi.height`,
`kernel_blockreader_is_block_in_active_chain` returns true iff `bi`'s hash
equals that chain entry's hash — in particular false for an orphaned
side-branch entry at the same height as a chain entry; when `bi.height` is
beyond the chain tip, the height lookup is null and the code dereferences it
(modelled `none`) instead of returning false. -/
theorem isBlockInActiveChain_spec :
    (∀ c bi e, getBlockIndexByHeight c (bi.height : Int) = some e →
      ((isBlockInActiveChain c bi = some true ↔ bi.hash = e.hash) ∧
       (bi.hash ≠ e.hash → isBlockInActiveChain c bi = some false))) ∧
    (∀ c bi, chainHeight c < (bi.height : Int) →
      isBlockInActiveChain c bi = none) := by
  constructor
  · intro c bi e h
    constructor
    · simp only [isBlockInActiveChain, h, Option.some.injEq, beq_iff_eq]
      exact eq_comm
    · intro hne
      have hb : (e.hash == bi.hash) = false :=
        beq_eq_false_iff_ne.mpr (fun h2 => hne h2.symm)
      simp [isBlockInActiveChain, h, hb]
  · intro c bi hgt
    have hnone : getBlockIndexByHeight c (bi.height : Int) = none := by
      unfold getBlockIndexByHeight
      exact if_pos (Or.inr hgt)
    simp [isBlockInActiveChain, hnone]

/-- Witness for C6 amended: the chain entry itself, an orphaned side branch
at the same height, and an entry beyond the tip. -/
theorem isBlockInActiveChain_spec_witness :
    isBlockInActiveChain sampleChain bEntry = some true ∧
    isBlockInActiveChain sampleChain orphanEntry = some false ∧
    isBlockInActiveChain [gEntry] farEntry = none := by
  refine ⟨?_, ?_, ?_⟩
  · exact (isBlockInActiveChain_spec.1 sampleChain bEntry bEntry
      (by decide)).1.mpr (by decide)
  · exact (isBlockInActiveChain_spec.1 sampleChain orphanEntry bEntry
      (by decide)).2 (by decide)
  · exact isBlockInActiveChain_spec.2 [gEntry] farEntry (by decide)

/-- C7: the raw header serialization of an entry (fields in their machine
widths) is exactly 80 bytes — 4-byte version, 32-byte previous-block hash,
32-byte merkle root, 4-byte time, 4-byte bits, 4-byte nonce, little-endian,
no padding — and decoding those 80 bytes reproduces the entry's header fields
exactly. -/
theorem headerBytes_80_roundtrip (e : BlockIndexEntry)
    (hv : e.version < 2 ^ 32) (hp : prevHashField e < 2 ^ 256)
    (hm : e.merkleRoot < 2 ^ 256) (ht : e.time < 2 ^ 32)
    (hb : e.bits < 2 ^ 32) (hn : e.nonce < 2 ^ 32) :
    (serializeHeader e).length = 80 ∧
    decodeHeader (serializeHeader e) =
      (e.version, prevHashField e, e.merkleRoot, e.time, e.bits, e.nonce) :=
  ⟨serializeHeader_length e, decodeHeader_serializeHeader e hv hp hm ht hb hn⟩

/-- Witness for C7 at the concrete entry `bEntry`. -/
theorem headerBytes_80_roundtrip_witness :
    (serializeHeader bEntry).length = 80 ∧
    decodeHeader (serializeHeader bEntry) =
      (bEntry.version, prevHashField bEntry, bEntry.merkleRoot, bEntry.time,
       bEntry.bits, bEntry.nonce) :=
  headerBytes_80_roundtrip bEntry (by decide) (by decide) (by decide)
    (by decide) (by decide) (by decide)

/-- C8: for a start height in `[0, Height()]` and a positive count, the batch
header export succeeds and returns exactly the serialized headers of the
chain slice starting at `start` — `min count (Height() - start + 1)` headers
of 80 bytes each, concatenated in ascending height order; running off the end
of the chain truncates the result and is not an error. -/
theorem getHeadersRaw_spec (c : List BlockIndexEntry) (s n : Nat)
    (hs : (s : Int) ≤ chainHeight c) (hn : 0 < n) :
    getHeadersRaw c (s : Int) n =
      some (((c.drop s).take n).map serializeHeader).flatten ∧
    (((c.drop s).take n).map serializeHeader).length =
      min n ((chainHeight c - s + 1).toNat) ∧
    ∀ bs ∈ ((c.drop s).take n).map serializeHeader, bs.length = 80 := by
  have hsl : s < c.length := by unfold chainHeight at hs; omega
  have hlen : ((c.drop s).take n).length = min n (c.length - s) := by
    simp [List.length_take, List.length_drop]
  refine ⟨?_, ?_, ?_⟩
  · unfold getHeadersRaw
    rw [if_neg (by omega : ¬n = 0), headersLoop_eq c n s,
        if_neg (by rw [List.length_map, hlen]; omega)]
  · rw [List.length_map, hlen]
    congr 1
    unfold chainHeight
    omega
  · intro bs hbs
    rcases List.mem_map.mp hbs with ⟨e, _, rfl⟩
    exact serializeHeader_length e

/-- Witness for C8: requesting 10 headers starting at height 1 of the
two-entry sample chain returns exactly the one tip header (truncation, not an
error). -/
theorem getHeadersRaw_spec_witness :
    getHeadersRaw sampleChain ((1 : Nat) : Int) 10 =
      some (((sampleChain.drop 1).take 10).map serializeHeader).flatten ∧
    (((sampleChain.drop 1).take 10).map serializeHeader).length =
      min 10 ((chainHeight sampleChain - (1 : Nat) + 1).toNat) ∧
    ∀ bs ∈ ((sampleChain.drop 1).take 10).map serializeHeader,
      bs.length = 80 :=
  getHeadersRaw_spec sampleChain 1 10 (by decide) (by decide)

/-- Store-read oracle that always fails. -/
def undoFailOracle : BlockIndexEntry → Option Nat := fun _ => none

/-- Store-read oracle that always succeeds; the payload is the entry's hash. -/
def undoOkOracle : BlockIndexEntry → Option Nat := fun e => some e.hash

/-- C9: `GetUndoData` on a height-0 (genesis) entry returns the absent result
with no store read issued (`ReadBlockUndo` is never called); for an entry of
height ≥ 1 exactly one store read is issued, a failed read yields the absent
result, and a successful read returns the payload. -/
theorem getUndoData_spec (readUndo : BlockIndexEntry → Option Nat)
    (e : BlockIndexEntry) :
    (e.height = 0 → getUndoData readUndo e = (none, [])) ∧
    (1 ≤ e.height →
      (getUndoData readUndo e).2 = [e] ∧
      (readUndo e = none → (getUndoData readUndo e).1 = none) ∧
      (∀ u, readUndo e = some u → (getUndoData readUndo e).1 = some u)) := by
  unfold getUndoData
  constructor
  · intro h
    rw [if_pos (by omega)]
  · intro h
    rw [if_neg (by omega)]
    cases hr : readUndo e
    all_goals simp [hr]

/-- Witness for C9: genesis issues no read; a height-1 entry issues one read,
with both a failing and a succeeding store. -/
theorem getUndoData_spec_witness :
    getUndoData undoFailOracle gEntry = (none, []) ∧
    (getUndoData undoFailOracle bEntry).2 = [bEntry] ∧
    (getUndoData undoFailOracle bEntry).1 = none ∧
    (getUndoData undoOkOracle bEntry).1 = some 11 := by
  refine ⟨?_, ?_, ?_, ?_⟩
  · exact (getUndoData_spec undoFailOracle gEntry).1 (by decide)
  · exact ((getUndoData_spec undoFailOracle bEntry).2 (by decide)).1
  · exact ((getUndoData_spec undoFailOracle bEntry).2 (by decide)).2.1 (by decide)
  · exact ((getUndoData_spec undoOkOracle bEntry).2 (by decide)).2.2 11 (by decide)

/-- C10: `GetGenesisHash` dereferences `Genesis()` with no guard: whenever
the validated chain is non-empty (`Height() >= 0`) there is an entry at
height 0 and the result is that entry's hash; on the empty chain the
dereference of the absent genesis entry is unguarded (modelled `none`) — no
NotReady-style error result exists at this interface. -/
theorem getGenesisHash_spec :
    (∀ c : List BlockIndexEntry, 0 ≤ chainHeight c →
      ∃ e, chainAt c 0 = some e ∧ getGenesisHash c = some e.hash) ∧
    (∀ c : List BlockIndexEntry, chainHeight c < 0 →
      getGenesisHash c = none) := by
  constructor
  · intro c hc
    cases c with
    | nil =>
      unfold chainHeight at hc
      simp at hc
    | cons a l =>
      refine ⟨a, ?_, ?_⟩
      · simp [chainAt]
      · simp [getGenesisHash, chainGenesis]
  · intro c hc
    cases c with
    | nil => simp [getGenesisHash, chainGenesis]
    | cons a l =>
      unfold chainHeight at hc
      simp at hc
      omega

/-- Witness for C10: the two-entry sample chain yields the genesis hash; the
empty chain yields the unguarded dereference. -/
theorem getGenesisHash_spec_witness :
    (∃ e, chainAt sampleChain 0 = some e ∧
      getGenesisHash sampleChain = some e.hash) ∧
    getGenesisHash ([] : List BlockIndexEntry) = none :=
  ⟨getGenesisHash_spec.1 sampleChain (by decide),
   getGenesisHash_spec.2 [] (by decide)⟩
